import Mathlib

/-!
Verification of the admission-control core of a video-downloader chat bot:
a token-bucket rate limiter (`rate_limiter.py`) composed with a
concurrency-slot resource manager (`resource_manager.py`), and the message
handler that wires them to the download path (`bot.py`).

Python floats (times, token counts) are modelled as rationals `ℚ`; the
wall clock `time.time()` becomes an explicit `now : ℚ` argument at each
call.  Python dicts are modelled as association lists in insertion order,
with dict-assignment semantics (overwrite if the key is present, append
otherwise).
-/

namespace TgBot

/-! ## TokenBucket (`rate_limiter.py`, lines 15-76) -/

/-- State of `TokenBucket`: `capacity` (int), `refill_rate` (float,
tokens/second), `tokens` (float), `last_refill` (float timestamp). -/
structure TokenBucket where
  capacity : ℕ
  refill_rate : ℚ
  tokens : ℚ
  last_refill : ℚ
deriving Repr, DecidableEq

namespace TokenBucket

/-- `TokenBucket.__init__(capacity, refill_rate)` at creation time `now`:
full capacity, `last_refill = time.time()`. -/
def init (capacity : ℕ) (refill_rate : ℚ) (now : ℚ) : TokenBucket :=
  { capacity := capacity
    refill_rate := refill_rate
    tokens := (capacity : ℚ)
    last_refill := now }

/-- `TokenBucket._refill` at wall-clock time `now`:
`elapsed = now - last_refill` (NOT clamped to be nonnegative),
`tokens = min(capacity, tokens + elapsed * refill_rate)`, `last_refill = now`. -/
def refill (b : TokenBucket) (now : ℚ) : TokenBucket :=
  let elapsed := now - b.last_refill
  let tokens_to_add := elapsed * b.refill_rate
  { b with tokens := min (b.capacity : ℚ) (b.tokens + tokens_to_add)
           last_refill := now }

/-- `TokenBucket.consume(tokens)` at time `now`: refill, then subtract and
return `true` when `tokens >= n`, else return `false`. -/
def consume (b : TokenBucket) (now : ℚ) (n : ℕ) : Bool × TokenBucket :=
  let b1 := b.refill now
  if (n : ℚ) ≤ b1.tokens then
    (true, { b1 with tokens := b1.tokens - (n : ℚ) })
  else
    (false, b1)

/-- `TokenBucket.time_until_ready()` at time `now`: refill; `0.0` when
`tokens >= 1`, else `(1 - tokens) / refill_rate`. -/
def time_until_ready (b : TokenBucket) (now : ℚ) : ℚ × TokenBucket :=
  let b1 := b.refill now
  if 1 ≤ b1.tokens then
    (0, b1)
  else
    ((1 - b1.tokens) / b1.refill_rate, b1)

/-- `TokenBucket.reset()` at time `now`. -/
def reset (b : TokenBucket) (now : ℚ) : TokenBucket :=
  { b with tokens := (b.capacity : ℚ), last_refill := now }

end TokenBucket

/-! ## RateLimiter (`rate_limiter.py`, lines 79-188) -/

/-- State of `RateLimiter`: the per-user bucket parameters, the per-user
bucket map (a `defaultdict` creating `TokenBucket(user_capacity,
user_refill_rate)` on first access), and the global bucket. -/
structure RateLimiter where
  user_capacity : ℕ
  user_refill_rate : ℚ
  user_buckets : List (ℕ × TokenBucket)
  global_bucket : TokenBucket
deriving Repr, DecidableEq

/-- Dict lookup `user_buckets.get(user_id)` (no default construction). -/
def lookupBucket : List (ℕ × TokenBucket) → ℕ → Option TokenBucket
  | [], _ => none
  | (k, b) :: rest, u => if k == u then some b else lookupBucket rest u

/-- Dict assignment `user_buckets[user_id] = bucket`: overwrite in place if
present, append otherwise. -/
def setBucket (m : List (ℕ × TokenBucket)) (u : ℕ) (b : TokenBucket) :
    List (ℕ × TokenBucket) :=
  if m.any (fun p => p.1 == u) then
    m.map (fun p => if p.1 == u then (u, b) else p)
  else
    m ++ [(u, b)]

namespace RateLimiter

/-- `self.user_buckets[user_id]` on a `defaultdict`: the existing bucket, or
a freshly constructed `TokenBucket(user_capacity, user_refill_rate)` whose
`last_refill` is the access time `now`. -/
def getUserBucket (rl : RateLimiter) (user : ℕ) (now : ℚ) : TokenBucket :=
  match lookupBucket rl.user_buckets user with
  | some b => b
  | none => TokenBucket.init rl.user_capacity rl.user_refill_rate now

/-- `RateLimiter.check_limit(user_id)`.  The successive wall-clock reads are
`t1` (global `consume`), `t2` (either global `time_until_ready` on global
denial, or the user bucket access and `consume`), and `t3` (user
`time_until_ready` on user denial).  Returns `((allowed, wait_time), state)`. -/
def check_limit (rl : RateLimiter) (user : ℕ) (t1 t2 t3 : ℚ) :
    (Bool × ℚ) × RateLimiter :=
  let g := rl.global_bucket.consume t1 1
  if g.1 then
    let ub := rl.getUserBucket user t2
    let u := ub.consume t2 1
    if u.1 then
      ((true, 0),
       { rl with global_bucket := g.2
                 user_buckets := setBucket rl.user_buckets user u.2 })
    else
      let w := u.2.time_until_ready t3
      ((false, w.1),
       { rl with global_bucket := g.2
                 user_buckets := setBucket rl.user_buckets user w.2 })
  else
    let w := g.2.time_until_ready t2
    ((false, w.1), { rl with global_bucket := w.2 })

/-- `RateLimiter.cleanup_old_buckets(max_age)` at time `now`: delete every
bucket with `current_time - bucket.last_refill > max_age` (strict). -/
def cleanup_old_buckets (rl : RateLimiter) (now max_age : ℚ) : RateLimiter :=
  { rl with user_buckets :=
      rl.user_buckets.filter (fun p => !(decide (max_age < now - p.2.last_refill))) }

end RateLimiter

/-! ## ResourceManager (`resource_manager.py`, lines 17-157) -/

/-- The two `raise ResourceError(...)` sites inside `download_slot`: the
global-cap site (carrying `active_count`) and the per-user-cap site
(carrying `user_active`).  `message` below renders the exact f-strings. -/
inductive ResourceError where
  | serverBusy (active_count : ℕ)
  | userBusy (user_active : ℕ)
deriving Repr, DecidableEq

/-- The f-string messages of the two `raise ResourceError(...)` sites. -/
def ResourceError.message : ResourceError → String
  | .serverBusy n =>
      "Server is busy (" ++ toString n ++ " active downloads). Please try again later."
  | .userBusy n =>
      "You have " ++ toString n ++ " active downloads. Please wait for them to complete."

/-- `active_downloads : Dict[int, int]`, mapping `task_id -> user_id`,
in insertion order. -/
abbrev DownloadMap := List (ℕ × ℕ)

/-- `task_id in active_downloads`. -/
def containsKey (m : DownloadMap) (k : ℕ) : Bool :=
  m.any (fun p => p.1 == k)

/-- Dict assignment `active_downloads[task_id] = user_id`: overwrite if the
key is present, append otherwise. -/
def dictSet (m : DownloadMap) (k v : ℕ) : DownloadMap :=
  if containsKey m k then
    m.map (fun p => if p.1 == k then (k, v) else p)
  else
    m ++ [(k, v)]

/-- `active_downloads.pop(task_id)` for a present key (also matches
`pop(task_id, None)`): remove the entry with that key. -/
def dictPop (m : DownloadMap) (k : ℕ) : DownloadMap :=
  m.filter (fun p => p.1 != k)

/-- `sum(1 for uid in active_downloads.values() if uid == user_id)`. -/
def userCount (m : DownloadMap) (u : ℕ) : ℕ :=
  (m.filter (fun p => p.2 == u)).length

/-- State of `ResourceManager`. -/
structure ResourceManager where
  max_concurrent_downloads : ℕ
  max_downloads_per_user : ℕ
  active_downloads : DownloadMap
deriving Repr, DecidableEq

namespace ResourceManager

/-- The acquisition phase of `ResourceManager.download_slot` (the critical
section before `yield`, lines 56-85): check the global cap, then the
per-user cap, then insert `active_downloads[task_id] = user_id`.  The state
component is unchanged on either raise, because the checks precede the
assignment. `task_id` is `id(asyncio.current_task())`. -/
def download_slot_enter (rm : ResourceManager) (user task_id : ℕ) :
    Except ResourceError Unit × ResourceManager :=
  let active_count := rm.active_downloads.length
  if rm.max_concurrent_downloads ≤ active_count then
    (.error (.serverBusy active_count), rm)
  else
    let user_active := userCount rm.active_downloads user
    if rm.max_downloads_per_user ≤ user_active then
      (.error (.userBusy user_active), rm)
    else
      (.ok (), { rm with active_downloads := dictSet rm.active_downloads task_id user })

/-- The release phase of `download_slot` (the `finally` block, lines 89-97):
`if task_id in active_downloads: active_downloads.pop(task_id)`. -/
def download_slot_release (rm : ResourceManager) (task_id : ℕ) : ResourceManager :=
  if containsKey rm.active_downloads task_id then
    { rm with active_downloads := dictPop rm.active_downloads task_id }
  else
    rm

/-- A whole `async with rm.download_slot(user)` scope around a protected
body.  `body_ok = true` models a body that returns normally, `body_ok =
false` a body that raises; in both cases the `finally` block runs the
release before the scope terminates.  If acquisition raises, the body never
runs and no release is attempted (the `try` block was never entered). -/
def download_slot_run (rm : ResourceManager) (user task_id : ℕ) (body_ok : Bool) :
    Except ResourceError Bool × ResourceManager :=
  let r := download_slot_enter rm user task_id
  match r.1 with
  | .error e => (.error e, r.2)
  | .ok _ => (.ok body_ok, download_slot_release r.2 task_id)

/-- `ResourceManager.cancel_user_downloads(user_id)`: pop every entry whose
value is `user_id`, returning how many were removed. -/
def cancel_user_downloads (rm : ResourceManager) (user : ℕ) :
    ℕ × ResourceManager :=
  let tasks_to_cancel := rm.active_downloads.filter (fun p => p.2 == user)
  (tasks_to_cancel.length,
   { rm with active_downloads := rm.active_downloads.filter (fun p => p.2 != user) })

/-- `ResourceManager.get_user_active_downloads(user_id)`. -/
def get_user_active_downloads (rm : ResourceManager) (user : ℕ) : ℕ :=
  userCount rm.active_downloads user

/-- States of the `active_downloads` map reachable from a fresh
`ResourceManager(mc, mu)` by any sequence of `download_slot` acquisitions
(successful enters), releases (the `finally` block, at any task id) and
`cancel_user_downloads` calls. -/
inductive Reachable (mc mu : ℕ) : DownloadMap → Prop where
  | init : Reachable mc mu []
  | acq {m : DownloadMap} {u t : ℕ} {rm' : ResourceManager} :
      Reachable mc mu m →
      download_slot_enter ⟨mc, mu, m⟩ u t = (.ok (), rm') →
      Reachable mc mu rm'.active_downloads
  | rel {m : DownloadMap} (t : ℕ) :
      Reachable mc mu m →
      Reachable mc mu (download_slot_release ⟨mc, mu, m⟩ t).active_downloads
  | cancel {m : DownloadMap} (u : ℕ) :
      Reachable mc mu m →
      Reachable mc mu (cancel_user_downloads ⟨mc, mu, m⟩ u).2.active_downloads

end ResourceManager

/-! ## Message-handling flow (`bot.py`, `handle_message` lines 562-876 and
`download_tiktok_instagram` lines 181-399)

`handle_message` is modelled as the sequence of admission-relevant events it
performs.  The inputs that come from message parsing (empty text, no URL,
invalid URL, platform of a valid URL) are abstracted into `MsgKind`; the
rate limiter is the real model above.  The salient structural fact is that
`bot.py` never calls `ResourceManager.download_slot` anywhere: the
`ResourceManager` is initialised (`init_resource_manager`, line 84) and
never consulted on the download path. -/

/-- Admission-relevant events a request-handling run can perform. -/
inductive BotEvent where
  | rateLimitChecked (allowed : Bool)
  | repliedWait
  | repliedError
  | repliedQualityMenu
  | slotAcquired (user : ℕ)
  | slotReleased
  | externalDownloadInvoked
deriving Repr, DecidableEq

/-- Outcome of the message-parsing and URL-validation steps of
`handle_message` (lines 580-618), abstracted. -/
inductive MsgKind where
  | emptyText
  | noUrl
  | invalidUrl
  | youtubeUrl
  | tiktokInstagramUrl
deriving Repr, DecidableEq

/-- `download_tiktok_instagram(update, url)` (lines 181-399): sends status
messages and invokes the external `yt_dlp` download (line 288) directly.
It performs no `download_slot` acquisition and no release. -/
def download_tiktok_instagram_events : List BotEvent :=
  [.externalDownloadInvoked]

/-- `handle_message(update, context)` (lines 562-876): check the rate
limiter first (line 572) and stop with a wait message when denied; then
branch on the parsed message: empty text / no URL / invalid URL reply and
stop; a YouTube URL shows the quality menu and stops; a TikTok/Instagram
URL goes straight to `download_tiktok_instagram` (line 865).  No
`ResourceManager` slot is ever acquired. -/
def handle_message (rl : RateLimiter) (user : ℕ) (t1 t2 t3 : ℚ)
    (kind : MsgKind) : List BotEvent × RateLimiter :=
  let r := rl.check_limit user t1 t2 t3
  if r.1.1 then
    match kind with
    | .emptyText => ([.rateLimitChecked true, .repliedError], r.2)
    | .noUrl => ([.rateLimitChecked true, .repliedError], r.2)
    | .invalidUrl => ([.rateLimitChecked true, .repliedError], r.2)
    | .youtubeUrl => ([.rateLimitChecked true, .repliedQualityMenu], r.2)
    | .tiktokInstagramUrl =>
        ([.rateLimitChecked true] ++ download_tiktok_instagram_events, r.2)
  else
    ([.rateLimitChecked false, .repliedWait], r.2)

/-! ## Helper lemmas on the dict model -/

theorem containsKey_eq_false_iff (m : DownloadMap) (k : ℕ) :
    containsKey m k = false ↔ ∀ p ∈ m, p.1 ≠ k := by
  simp [containsKey, List.any_eq_false]

theorem dictPop_append_fresh (m : DownloadMap) (t u : ℕ)
    (h : containsKey m t = false) : dictPop (m ++ [(t, u)]) t = m := by
  have hall := (containsKey_eq_false_iff m t).mp h
  unfold dictPop
  rw [List.filter_append]
  have h1 : m.filter (fun p => p.1 != t) = m := by
    apply List.filter_eq_self.mpr
    intro p hp
    simpa using hall p hp
  have h2 : ([(t, u)] : DownloadMap).filter (fun p => p.1 != t) = [] := by
    simp
  rw [h1, h2, List.append_nil]

theorem userCount_filter_le (m : DownloadMap) (q : ℕ × ℕ → Bool) (u : ℕ) :
    userCount (m.filter q) u ≤ userCount m u := by
  unfold userCount
  exact List.Sublist.length_le
    (List.Sublist.filter (fun p => p.2 == u)
      (List.filter_sublist m : (m.filter q).Sublist m))

theorem nodup_keys_filter (m : DownloadMap) (q : ℕ × ℕ → Bool)
    (h : (m.map Prod.fst).Nodup) : ((m.filter q).map Prod.fst).Nodup :=
  List.Nodup.sublist
    (List.Sublist.map Prod.fst (List.filter_sublist m : (m.filter q).Sublist m)) h

theorem keys_overwrite (m : DownloadMap) (k v : ℕ) :
    (m.map (fun p => if p.1 == k then (k, v) else p)).map Prod.fst
      = m.map Prod.fst := by
  rw [List.map_map]
  apply List.map_congr_left
  intro p _
  by_cases hp : p.1 = k <;> simp [hp]

theorem length_dictSet_le (m : DownloadMap) (k v : ℕ) :
    (dictSet m k v).length ≤ m.length + 1 := by
  unfold dictSet
  split <;> simp

theorem nodup_keys_dictSet (m : DownloadMap) (k v : ℕ)
    (h : (m.map Prod.fst).Nodup) :
    ((dictSet m k v).map Prod.fst).Nodup := by
  unfold dictSet
  split
  · rw [keys_overwrite]; exact h
  · rename_i hc
    have hk : k ∉ m.map Prod.fst := by
      rw [Bool.not_eq_true] at hc
      have hall := (containsKey_eq_false_iff m k).mp hc
      intro hmem
      obtain ⟨p, hp, hpk⟩ := List.mem_map.mp hmem
      exact hall p hp hpk
    simp [List.nodup_append, h, hk]

theorem userCount_overwrite_other (m : DownloadMap) (k v u : ℕ) (hvu : v ≠ u) :
    userCount (m.map (fun p => if p.1 == k then (k, v) else p)) u
      ≤ userCount m u := by
  unfold userCount
  rw [← List.countP_eq_length_filter, ← List.countP_eq_length_filter,
    List.countP_map]
  apply List.countP_mono_left
  intro p _ hq
  by_cases hpk : p.1 = k
  · exfalso
    simp [Function.comp, hpk] at hq
    exact hvu hq
  · simpa [Function.comp, hpk] using hq

theorem userCount_overwrite_self (m : DownloadMap) (k v : ℕ) :
    (m.map Prod.fst).Nodup →
    userCount (m.map (fun p => if p.1 == k then (k, v) else p)) v
      ≤ userCount m v + 1 := by
  induction m with
  | nil => intro _; simp [userCount]
  | cons p rest ih =>
      intro hnd
      have hnd' : (rest.map Prod.fst).Nodup := by
        simp only [List.map_cons, List.nodup_cons] at hnd
        exact hnd.2
      by_cases hpk : p.1 = k
      · have hknotin : ∀ q ∈ rest, (q.1 == k) = false := by
          intro q hq
          simp only [List.map_cons, List.nodup_cons] at hnd
          have h1 := hnd.1
          simp only [beq_eq_false_iff_ne, ne_eq]
          intro hqk
          apply h1
          rw [hpk, ← hqk]
          exact List.mem_map_of_mem Prod.fst hq
        have hrest : rest.map (fun q => if q.1 == k then (k, v) else q) = rest := by
          conv_rhs => rw [← List.map_id rest]
          apply List.map_congr_left
          intro q hq
          simp [hknotin q hq]
        have hfp : (if p.1 == k then ((k, v) : ℕ × ℕ) else p) = (k, v) := by
          simp [hpk]
        rw [List.map_cons, hfp, hrest]
        unfold userCount
        rw [List.filter_cons, List.filter_cons]
        split <;> split <;> simp_all
      · have hfp : (if p.1 == k then ((k, v) : ℕ × ℕ) else p) = p := by
          simp [hpk]
        rw [List.map_cons, hfp]
        have ihx := ih hnd'
        unfold userCount at ihx ⊢
        rw [List.filter_cons, List.filter_cons]
        split <;> simp_all

theorem userCount_dictSet_other (m : DownloadMap) (k v u : ℕ) (hvu : v ≠ u) :
    userCount (dictSet m k v) u ≤ userCount m u := by
  unfold dictSet
  split
  · exact userCount_overwrite_other m k v u hvu
  · unfold userCount
    rw [List.filter_append]
    have : ([(k, v)] : DownloadMap).filter (fun p => p.2 == u) = [] := by
      simp [hvu]
    simp [this]

theorem userCount_dictSet_self (m : DownloadMap) (k v : ℕ)
    (hnd : (m.map Prod.fst).Nodup) :
    userCount (dictSet m k v) v ≤ userCount m v + 1 := by
  unfold dictSet
  split
  · exact userCount_overwrite_self m k v hnd
  · unfold userCount
    rw [List.filter_append]
    simp

/-- The inductive invariant carried through `Reachable`: the task-id keys
are distinct, the global count is within the global cap, and every user's
count is within the per-user cap. -/
theorem reachable_inv {mc mu : ℕ} {m : DownloadMap}
    (h : ResourceManager.Reachable mc mu m) :
    (m.map Prod.fst).Nodup ∧ m.length ≤ mc ∧ ∀ u, userCount m u ≤ mu := by
  induction h with
  | init => simp [userCount]
  | acq hr heq ih =>
      obtain ⟨hnd, hlen, hcnt⟩ := ih
      rename_i m u t rm'
      simp only [ResourceManager.download_slot_enter] at heq
      split at heq
      · exact absurd (congrArg Prod.fst heq) (by simp)
      · split at heq
        · exact absurd (congrArg Prod.fst heq) (by simp)
        · rename_i h1 h2
          have h3 := congrArg Prod.snd heq
          have h4 : rm'.active_downloads = dictSet m t u :=
            (congrArg ResourceManager.active_downloads h3).symm
          rw [h4]
          refine ⟨nodup_keys_dictSet m t u hnd, ?_, ?_⟩
          · have := length_dictSet_le m t u
            omega
          · intro w
            by_cases hw : u = w
            · subst hw
              have := userCount_dictSet_self m t u hnd
              omega
            · exact le_trans (userCount_dictSet_other m t u w hw) (hcnt w)
  | rel t hr ih =>
      obtain ⟨hnd, hlen, hcnt⟩ := ih
      rename_i m
      simp only [ResourceManager.download_slot_release]
      split
      · simp only [dictPop]
        refine ⟨nodup_keys_filter m _ hnd, ?_, fun u => ?_⟩
        · exact le_trans
            (List.Sublist.length_le
              (List.filter_sublist m : (m.filter _).Sublist m)) hlen
        · exact le_trans (userCount_filter_le m _ u) (hcnt u)
      · exact ⟨hnd, hlen, hcnt⟩
  | cancel u hr ih =>
      obtain ⟨hnd, hlen, hcnt⟩ := ih
      rename_i m
      simp only [ResourceManager.cancel_user_downloads]
      refine ⟨nodup_keys_filter m _ hnd, ?_, fun w => ?_⟩
      · exact le_trans
          (List.Sublist.length_le
            (List.filter_sublist m : (m.filter _).Sublist m)) hlen
      · exact le_trans (userCount_filter_le m _ w) (hcnt w)

/-! ## Claim theorems -/

/-- C1: For every reachable state of `ResourceManager` (any sequence of
`download_slot` acquisitions/releases and `cancel_user_downloads` calls),
the number of entries in the `active_downloads` mapping is at most
`max_concurrent_downloads`, and for every user `u` the number of entries
mapped to `u` is at most `max_downloads_per_user`. -/
theorem active_downloads_within_caps {mc mu : ℕ} {m : DownloadMap}
    (h : ResourceManager.Reachable mc mu m) :
    m.length ≤ mc ∧ ∀ u, userCount m u ≤ mu :=
  ⟨(reachable_inv h).2.1, (reachable_inv h).2.2⟩

theorem active_downloads_within_caps_witness :
    ResourceManager.Reachable 10 2 [(5, 7)] ∧
    ([(5, 7)] : DownloadMap).length ≤ 10 ∧ ∀ u, userCount [(5, 7)] u ≤ 2 := by
  have hacq : ResourceManager.download_slot_enter ⟨10, 2, []⟩ 7 5
      = (.ok (), ⟨10, 2, [(5, 7)]⟩) := by
    simp [ResourceManager.download_slot_enter, dictSet, containsKey, userCount]
  have hr : ResourceManager.Reachable 10 2 [(5, 7)] :=
    ResourceManager.Reachable.acq ResourceManager.Reachable.init hacq
  exact ⟨hr, active_downloads_within_caps hr⟩

/-- C7: in `download_slot`, the global cap is checked before the per-user
cap (exceeding the global cap yields the server-busy error no matter what
the per-user count is); each denial is the typed `ResourceError` raised with
a message that distinguishes the global from the per-user cause and reports
the current active count. -/
theorem download_slot_checks_global_first (rm : ResourceManager) (u t : ℕ) :
    (rm.max_concurrent_downloads ≤ rm.active_downloads.length →
      (rm.download_slot_enter u t).1
        = .error (.serverBusy rm.active_downloads.length)) ∧
    (rm.active_downloads.length < rm.max_concurrent_downloads →
      rm.max_downloads_per_user ≤ userCount rm.active_downloads u →
      (rm.download_slot_enter u t).1
        = .error (.userBusy (userCount rm.active_downloads u))) ∧
    (∀ n k : ℕ,
      (ResourceError.serverBusy n).message ≠ (ResourceError.userBusy k).message) ∧
    (∀ n : ℕ, ∃ s1 s2,
      (ResourceError.serverBusy n).message = s1 ++ toString n ++ s2) ∧
    (∀ n : ℕ, ∃ s1 s2,
      (ResourceError.userBusy n).message = s1 ++ toString n ++ s2) := by
  refine ⟨?_, ?_, ?_, ?_, ?_⟩
  · intro h
    simp only [ResourceManager.download_slot_enter]
    rw [if_pos h]
  · intro h1 h2
    simp only [ResourceManager.download_slot_enter]
    rw [if_neg (by omega :
        ¬ rm.max_concurrent_downloads ≤ rm.active_downloads.length),
      if_pos h2]
  · intro n k h
    have h2 := congrArg String.data h
    simp only [ResourceError.message, String.data_append] at h2
    simp at h2
  · intro n
    exact ⟨"Server is busy (", " active downloads). Please try again later.", rfl⟩
  · intro n
    exact ⟨"You have ", " active downloads. Please wait for them to complete.", rfl⟩

theorem download_slot_checks_global_first_witness :
    1 ≤ ([(0, 42)] : DownloadMap).length ∧
    (ResourceManager.download_slot_enter ⟨1, 1, [(0, 42)]⟩ 7 9).1
      = .error (.serverBusy 1) := by
  refine ⟨by simp, ?_⟩
  have := (download_slot_checks_global_first ⟨1, 1, [(0, 42)]⟩ 7 9).1 (by simp)
  simpa using this

/-- C10: whenever the acquisition phase of `download_slot` raises a
resource-exhausted error (global or per-user cause), the `active_downloads`
mapping — in fact the whole manager state — is exactly unchanged by the
call, because both checks happen before the insertion. -/
theorem download_slot_enter_error_frame (rm : ResourceManager)
    (user task_id : ℕ) (e : ResourceError)
    (h : (rm.download_slot_enter user task_id).1 = .error e) :
    (rm.download_slot_enter user task_id).2 = rm := by
  simp only [ResourceManager.download_slot_enter] at h ⊢
  split at h
  · rename_i h1
    rw [if_pos h1]
  · rename_i h1
    rw [if_neg h1]
    split at h
    · rename_i h2
      rw [if_pos h2]
    · simp at h

theorem download_slot_enter_error_frame_witness :
    ((ResourceManager.download_slot_enter ⟨0, 2, []⟩ 3 4).1
      = .error (.serverBusy 0)) ∧
    (ResourceManager.download_slot_enter ⟨0, 2, []⟩ 3 4).2 = ⟨0, 2, []⟩ := by
  have h : (ResourceManager.download_slot_enter ⟨0, 2, []⟩ 3 4).1
      = .error (.serverBusy 0) := by
    simp [ResourceManager.download_slot_enter]
  exact ⟨h, download_slot_enter_error_frame _ 3 4 _ h⟩

/-- C3 counterexample: the claim fails as stated when the acquiring call's
task id already keys an entry of the mapping.  `task_id` is
`id(asyncio.current_task())`, so a task that re-enters `download_slot`
while already holding a slot (the nested acquisitions of `test_bot.py`,
lines 200-211, do exactly this inside one task) reuses its key: here user 7
holds task id 5, re-acquires successfully (per-user cap 2), the dict
assignment overwrites the held entry, and the inner `finally` pops the key
— so after the block exits, `get_user_active_downloads 7` is 0, not its
pre-acquire value 1. -/
theorem download_slot_same_task_reacquire_drops_count :
    (ResourceManager.download_slot_enter ⟨10, 2, [(5, 7)]⟩ 7 5).1 = .ok () ∧
    (⟨10, 2, [(5, 7)]⟩ : ResourceManager).get_user_active_downloads 7 = 1 ∧
    (ResourceManager.download_slot_run ⟨10, 2, [(5, 7)]⟩ 7 5 true).2.get_user_active_downloads 7
      = 0 := by
  refine ⟨rfl, rfl, rfl⟩

/-- C3 (amended): for every call to `download_slot` whose task id is not
already a key of the active-downloads mapping (the calling task does not
already hold a slot), after a successful acquisition, once the protected
block exits by any path (normal return, `body_ok = true`, or an exception
from the body, `body_ok = false`), the `finally` block has removed the
inserted entry, so the mapping — and in particular
`get_user_active_downloads user` — is back at its pre-acquire value.  On a
same-task re-acquisition the dict insert instead overwrites the held entry
and the release pops it, dropping the count below its pre-acquire value. -/
theorem download_slot_release_on_exit (rm : ResourceManager)
    (user task_id : ℕ) (body_ok : Bool)
    (hfresh : containsKey rm.active_downloads task_id = false)
    (hok : (rm.download_slot_enter user task_id).1 = .ok ()) :
    (rm.download_slot_run user task_id body_ok).2.active_downloads
      = rm.active_downloads ∧
    (rm.download_slot_run user task_id body_ok).2.get_user_active_downloads user
      = rm.get_user_active_downloads user := by
  have hset : dictSet rm.active_downloads task_id user
      = rm.active_downloads ++ [(task_id, user)] := by
    simp [dictSet, hfresh]
  have hck : containsKey (rm.active_downloads ++ [(task_id, user)]) task_id
      = true := by
    simp [containsKey]
  have hpop := dictPop_append_fresh rm.active_downloads task_id user hfresh
  have henter : rm.download_slot_enter user task_id
      = (.ok (), { rm with active_downloads :=
          rm.active_downloads ++ [(task_id, user)] }) := by
    simp only [ResourceManager.download_slot_enter] at hok ⊢
    split at hok
    · simp at hok
    · rename_i h1
      split at hok
      · simp at hok
      · rename_i h2
        rw [if_neg h1, if_neg h2, hset]
  have hmain : (rm.download_slot_run user task_id body_ok).2.active_downloads
      = rm.active_downloads := by
    simp only [ResourceManager.download_slot_run, henter,
      ResourceManager.download_slot_release]
    rw [if_pos hck]
    simp only [dictPop] at hpop ⊢
    exact hpop
  refine ⟨hmain, ?_⟩
  simp only [ResourceManager.get_user_active_downloads, hmain]

theorem download_slot_release_on_exit_witness :
    containsKey ([] : DownloadMap) 5 = false ∧
    (ResourceManager.download_slot_enter ⟨10, 2, []⟩ 7 5).1 = .ok () ∧
    (ResourceManager.download_slot_run ⟨10, 2, []⟩ 7 5 false).2.active_downloads
      = ([] : DownloadMap) ∧
    (ResourceManager.download_slot_run ⟨10, 2, []⟩ 7 5 false).2.get_user_active_downloads 7
      = (⟨10, 2, []⟩ : ResourceManager).get_user_active_downloads 7 := by
  have h1 : containsKey ([] : DownloadMap) 5 = false := rfl
  have h2 : (ResourceManager.download_slot_enter ⟨10, 2, []⟩ 7 5).1 = .ok () := by
    simp [ResourceManager.download_slot_enter, userCount]
  obtain ⟨ha, hb⟩ := download_slot_release_on_exit ⟨10, 2, []⟩ 7 5 false h1 h2
  exact ⟨h1, h2, ha, hb⟩

/-- C2: the claim fails on the code.  `bot.py` never calls
`ResourceManager.download_slot`: with the rate limiter admitting, a message
carrying a valid TikTok/Instagram URL reaches the external download
(`yt_dlp` inside `download_tiktok_instagram`) while no slot-acquisition
event ever occurs in the run. -/
theorem handle_message_downloads_without_slot :
    BotEvent.externalDownloadInvoked ∈
      (handle_message ⟨5, 1/10, [], ⟨100, 1, 100, 0⟩⟩ 1 0 0 0
        .tiktokInstagramUrl).1 ∧
    (∀ u : ℕ, BotEvent.slotAcquired u ∉
      (handle_message ⟨5, 1/10, [], ⟨100, 1, 100, 0⟩⟩ 1 0 0 0
        .tiktokInstagramUrl).1) := by
  have hrun : (handle_message ⟨5, 1/10, [], ⟨100, 1, 100, 0⟩⟩ 1 0 0 0
      .tiktokInstagramUrl).1
      = [.rateLimitChecked true, .externalDownloadInvoked] := by
    norm_num [handle_message, RateLimiter.check_limit, TokenBucket.consume,
      TokenBucket.refill, RateLimiter.getUserBucket, lookupBucket,
      TokenBucket.init, download_tiktok_instagram_events]
  rw [hrun]
  exact ⟨by simp, fun u => by simp⟩

/-- C4: when `check_limit` is denied by the global bucket, the per-user
bucket map is exactly as before the call (the denied request's user bucket
is neither consulted, consumed, nor lazily created). -/
theorem check_limit_global_denied_frame (rl : RateLimiter) (user : ℕ)
    (t1 t2 t3 : ℚ) (h : (rl.global_bucket.consume t1 1).1 = false) :
    (rl.check_limit user t1 t2 t3).2.user_buckets = rl.user_buckets ∧
    (rl.check_limit user t1 t2 t3).1.1 = false := by
  simp only [RateLimiter.check_limit]
  rw [if_neg (by rw [h]; simp :
    ¬ ((rl.global_bucket.consume t1 1).1 = true))]
  exact ⟨rfl, rfl⟩

theorem check_limit_global_denied_frame_witness :
    ((⟨100, 1, 0, 0⟩ : TokenBucket).consume 0 1).1 = false ∧
    (RateLimiter.check_limit ⟨5, 1, [(1, ⟨5, 1, 3, 0⟩)], ⟨100, 1, 0, 0⟩⟩ 1 0 0 0).2.user_buckets
      = [(1, ⟨5, 1, 3, 0⟩)] ∧
    (RateLimiter.check_limit ⟨5, 1, [(1, ⟨5, 1, 3, 0⟩)], ⟨100, 1, 0, 0⟩⟩ 1 0 0 0).1.1
      = false := by
  have h : ((⟨100, 1, 0, 0⟩ : TokenBucket).consume 0 1).1 = false := by
    norm_num [TokenBucket.consume, TokenBucket.refill]
  obtain ⟨ha, hb⟩ :=
    check_limit_global_denied_frame ⟨5, 1, [(1, ⟨5, 1, 3, 0⟩)], ⟨100, 1, 0, 0⟩⟩ 1 0 0 0 h
  exact ⟨h, ha, hb⟩

theorem consume_true_tokens (b : TokenBucket) (now : ℚ) (n : ℕ)
    (h : (b.consume now n).1 = true) :
    (b.consume now n).2.tokens = (b.refill now).tokens - (n : ℚ) := by
  simp only [TokenBucket.consume] at h ⊢
  split at h
  · rename_i hc
    rw [if_pos hc]
  · simp at h

/-- C5: when `check_limit` is admitted by the global bucket but denied by
the user's bucket, the call returns denied and the global bucket's token
count ends at its post-refill value minus one — the consumed global token
is not refunded. -/
theorem check_limit_no_global_refund (rl : RateLimiter) (user : ℕ)
    (t1 t2 t3 : ℚ)
    (hg : (rl.global_bucket.consume t1 1).1 = true)
    (hu : ((rl.getUserBucket user t2).consume t2 1).1 = false) :
    (rl.check_limit user t1 t2 t3).1.1 = false ∧
    (rl.check_limit user t1 t2 t3).2.global_bucket.tokens
      = (rl.global_bucket.refill t1).tokens - 1 := by
  simp only [RateLimiter.check_limit]
  rw [if_pos hg, if_neg (by rw [hu]; simp :
    ¬ (((rl.getUserBucket user t2).consume t2 1).1 = true))]
  refine ⟨rfl, ?_⟩
  have := consume_true_tokens rl.global_bucket t1 1 hg
  simpa using this

theorem check_limit_no_global_refund_witness :
    ((⟨100, 1, 100, 0⟩ : TokenBucket).consume 0 1).1 = true ∧
    ((RateLimiter.getUserBucket ⟨5, 1, [(1, ⟨5, 1, 0, 0⟩)], ⟨100, 1, 100, 0⟩⟩ 1 0).consume 0 1).1
      = false ∧
    (RateLimiter.check_limit ⟨5, 1, [(1, ⟨5, 1, 0, 0⟩)], ⟨100, 1, 100, 0⟩⟩ 1 0 0 0).1.1
      = false ∧
    (RateLimiter.check_limit ⟨5, 1, [(1, ⟨5, 1, 0, 0⟩)], ⟨100, 1, 100, 0⟩⟩ 1 0 0 0).2.global_bucket.tokens
      = ((⟨100, 1, 100, 0⟩ : TokenBucket).refill 0).tokens - 1 := by
  have hg : ((⟨100, 1, 100, 0⟩ : TokenBucket).consume 0 1).1 = true := by
    norm_num [TokenBucket.consume, TokenBucket.refill]
  have hu : ((RateLimiter.getUserBucket ⟨5, 1, [(1, ⟨5, 1, 0, 0⟩)], ⟨100, 1, 100, 0⟩⟩ 1 0).consume 0 1).1
      = false := by
    norm_num [RateLimiter.getUserBucket, lookupBucket, TokenBucket.consume,
      TokenBucket.refill]
  obtain ⟨ha, hb⟩ :=
    check_limit_no_global_refund ⟨5, 1, [(1, ⟨5, 1, 0, 0⟩)], ⟨100, 1, 100, 0⟩⟩ 1 0 0 0 hg hu
  exact ⟨hg, hu, ha, hb⟩

/-- C6: the claim fails on the code. `_refill` uses
`elapsed = now - last_refill` with no clamp to 0, so a call at a timestamp
earlier than `last_refill` (clock skew) drives the token count below 0:
a bucket with capacity 5, refill rate 1, 5 tokens and `last_refill = 100`,
accessed via `consume` at `now = 0`, ends with `tokens = -95 < 0`,
violating the claimed `[0, capacity]` invariant. -/
theorem refill_negative_elapsed_breaks_invariant :
    ((⟨5, 1, 5, 100⟩ : TokenBucket).consume 0 1).2.tokens = -95 ∧
    ((⟨5, 1, 5, 100⟩ : TokenBucket).consume 0 1).2.tokens < 0 := by
  have h : ((⟨5, 1, 5, 100⟩ : TokenBucket).consume 0 1).2.tokens = -95 := by
    norm_num [TokenBucket.consume, TokenBucket.refill]
  exact ⟨h, by rw [h]; norm_num⟩

/-- C8: for a bucket with positive refill rate, `time_until_ready` returns
0 whenever the post-refill token count is at least 1, and otherwise returns
exactly `(1 - tokens) / refill_rate`, which is strictly positive. -/
theorem time_until_ready_spec (b : TokenBucket) (now : ℚ)
    (hrate : 0 < b.refill_rate) :
    (1 ≤ (b.refill now).tokens → (b.time_until_ready now).1 = 0) ∧
    ((b.refill now).tokens < 1 →
      (b.time_until_ready now).1 = (1 - (b.refill now).tokens) / b.refill_rate ∧
      0 < (b.time_until_ready now).1) := by
  constructor
  · intro h
    simp only [TokenBucket.time_until_ready]
    rw [if_pos h]
  · intro h
    have hne : ¬ (1 ≤ (b.refill now).tokens) := not_le.mpr h
    refine ⟨?_, ?_⟩
    · simp only [TokenBucket.time_until_ready]
      rw [if_neg hne]
      rfl
    · simp only [TokenBucket.time_until_ready]
      rw [if_neg hne]
      show 0 < (1 - (b.refill now).tokens) / (b.refill now).refill_rate
      exact div_pos (by linarith) hrate

theorem time_until_ready_spec_witness :
    (0 : ℚ) < (⟨5, 1, 0, 0⟩ : TokenBucket).refill_rate ∧
    ((⟨5, 1, 0, 0⟩ : TokenBucket).refill 0).tokens < 1 ∧
    ((⟨5, 1, 0, 0⟩ : TokenBucket).time_until_ready 0).1
      = (1 - ((⟨5, 1, 0, 0⟩ : TokenBucket).refill 0).tokens) / (1 : ℚ) ∧
    0 < ((⟨5, 1, 0, 0⟩ : TokenBucket).time_until_ready 0).1 := by
  have hrate : (0 : ℚ) < (⟨5, 1, 0, 0⟩ : TokenBucket).refill_rate := by norm_num
  have htok : ((⟨5, 1, 0, 0⟩ : TokenBucket).refill 0).tokens < 1 := by
    norm_num [TokenBucket.refill]
  obtain ⟨ha, hb⟩ := (time_until_ready_spec ⟨5, 1, 0, 0⟩ 0 hrate).2 htok
  exact ⟨hrate, htok, ha, hb⟩

/-- C9 counterexample: `cleanup_old_buckets(max_age=0)` does NOT remove
every existing per-user bucket — the removal test is strict
(`current_time - last_refill > max_age`), so a bucket whose `last_refill`
equals the current time survives a `max_age = 0` sweep. -/
theorem cleanup_zero_keeps_fresh_bucket :
    (RateLimiter.cleanup_old_buckets
        ⟨5, 1, [(1, ⟨5, 1, 5, 100⟩)], ⟨100, 1, 100, 0⟩⟩ 100 0).user_buckets
      = [(1, ⟨5, 1, 5, 100⟩)] ∧
    (RateLimiter.cleanup_old_buckets
        ⟨5, 1, [(1, ⟨5, 1, 5, 100⟩)], ⟨100, 1, 100, 0⟩⟩ 100 0).user_buckets
      ≠ [] := by
  have h : (RateLimiter.cleanup_old_buckets
      ⟨5, 1, [(1, ⟨5, 1, 5, 100⟩)], ⟨100, 1, 100, 0⟩⟩ 100 0).user_buckets
      = [(1, ⟨5, 1, 5, 100⟩)] := by
    norm_num [RateLimiter.cleanup_old_buckets]
  exact ⟨h, by rw [h]; simp⟩

/-- C9 (amended): `cleanup_old_buckets` with `max_age = 0` removes exactly
the buckets whose `last_refill` is strictly earlier than the current time
(a bucket refilled at or after the current time is kept), and
`cleanup_old_buckets` with a `max_age` strictly larger than every bucket's
idle time removes none. -/
theorem cleanup_old_buckets_spec (rl : RateLimiter) (now max_age : ℚ) :
    ((rl.cleanup_old_buckets now 0).user_buckets
      = rl.user_buckets.filter (fun p => decide (now ≤ p.2.last_refill))) ∧
    ((∀ p ∈ rl.user_buckets, now - p.2.last_refill < max_age) →
      (rl.cleanup_old_buckets now max_age).user_buckets = rl.user_buckets) := by
  constructor
  · simp only [RateLimiter.cleanup_old_buckets]
    apply List.filter_congr
    intro p _
    rcases le_or_lt now p.2.last_refill with h | h
    · have h1 : ¬ ((0 : ℚ) < now - p.2.last_refill) := by linarith
      simp [h1, h]
    · have h1 : (0 : ℚ) < now - p.2.last_refill := by linarith
      have h2 : ¬ (now ≤ p.2.last_refill) := by linarith
      simp [h1, h2]
  · intro hall
    simp only [RateLimiter.cleanup_old_buckets]
    apply List.filter_eq_self.mpr
    intro p hp
    have := hall p hp
    simp only [Bool.not_eq_true', decide_eq_false_iff_not]
    linarith

theorem cleanup_old_buckets_spec_witness :
    (∀ p ∈ ([(1, ⟨5, 1, 5, 100⟩)] : List (ℕ × TokenBucket)),
      (100 : ℚ) - p.2.last_refill < 7) ∧
    (RateLimiter.cleanup_old_buckets
        ⟨5, 1, [(1, ⟨5, 1, 5, 100⟩)], ⟨100, 1, 100, 0⟩⟩ 100 7).user_buckets
      = [(1, ⟨5, 1, 5, 100⟩)] := by
  have hall : ∀ p ∈ ([(1, ⟨5, 1, 5, 100⟩)] : List (ℕ × TokenBucket)),
      (100 : ℚ) - p.2.last_refill < 7 := by
    intro p hp
    rw [List.mem_singleton] at hp
    subst hp
    norm_num
  exact ⟨hall,
    (cleanup_old_buckets_spec ⟨5, 1, [(1, ⟨5, 1, 5, 100⟩)], ⟨100, 1, 100, 0⟩⟩ 100 7).2 hall⟩

end TgBot
